import Mathlib

/-!
Verification development for the prettyhtml whitespace formatter.

The embedding follows the source of the formatter module
(`@starptech/prettyhtml-formatter`, the indentation/newline engine) and the
tag-behavior registry (`HtmlTagDefinition` / `getHtmlTagDefinition`).
Strings are modelled as lists of characters; the external `prettier.format`
call is a parameter of the engine settings; the external
whitespace-minifying pre-pass (`rehype-minify-whitespace`) is an external
collaborator running before the engine, so the engine consumes its output.
-/

/- ## Character-list strings -/

abbrev Str := List Char

def s2l (s : String) : Str := s.data

/-- JavaScript whitespace class `\s`, restricted to the ASCII whitespace
characters (space, tab, newline, carriage return, vertical tab, form feed). -/
def isWsChar (c : Char) : Bool :=
  c = ' ' || c = '\t' || c = '\n' || c = '\r' || c = Char.ofNat 11 || c = Char.ofNat 12

/-- Substring containment, `value.indexOf(pat) !== -1`. -/
def containsSub (pat : Str) : Str → Bool
  | [] => pat.isEmpty
  | c :: rest => pat.isPrefixOf (c :: rest) || containsSub pat rest

/-- Split on `'\n'` (`value.split('\n')`). -/
def splitNl : Str → List Str
  | [] => [[]]
  | c :: rest =>
    if c = '\n' then [] :: splitNl rest
    else
      match splitNl rest with
      | [] => [[c]]
      | h :: t => (c :: h) :: t

/-- Join with `'\n'` (`lines.join('\n')`). -/
def joinNl (ls : List Str) : Str := List.intercalate ['\n'] ls

/-- JavaScript `String.prototype.trim`. -/
def trimStr (s : Str) : Str :=
  ((s.dropWhile isWsChar).reverse.dropWhile isWsChar).reverse

def isSpTab (c : Char) : Bool := c = ' ' || c = '\t'

/-- `value.replace(/^[ \t]+|[ \t]+$/g, '')`: strip leading and trailing
spaces and tabs. -/
def stripEdges (s : Str) : Str :=
  ((s.dropWhile isSpTab).reverse.dropWhile isSpTab).reverse

/-- `value.replace(/\n/g, '$&' + ind)`: insert `ind` after every newline. -/
def indentAfterNl (ind : Str) : Str → Str
  | [] => []
  | c :: rest =>
    if c = '\n' then c :: (ind ++ indentAfterNl ind rest)
    else c :: indentAfterNl ind rest

/-- `repeat-string`: `repeat(s, n)`; a non-positive count yields the empty
string. -/
def repeatStr (s : Str) (n : Int) : Str :=
  List.join (List.replicate n.toNat s)

def lowerStr (s : Str) : Str := s.map Char.toLower

/-- `/\s*\n\s*$/.test(value)` (with the JS guard `value &&`): the trailing
whitespace run of `value` contains a newline. -/
def endsWithNewlineStr (v : Str) : Bool :=
  (v.reverse.takeWhile isWsChar).contains '\n'

/-- `/^\s*\n/.test(value)` (with the JS guard `value &&`): the leading
whitespace run of `value` contains a newline. -/
def startsWithNewlineStr (v : Str) : Bool :=
  (v.takeWhile isWsChar).contains '\n'

/-- `/^\s+$/.test(value)`: non-empty and all whitespace. -/
def isAllWsStr (v : Str) : Bool :=
  !v.isEmpty && v.all isWsChar

/- ## The hast node model -/

/-- Tagged variant over the node kinds used by the formatter: root, element
(tag name, properties, children), text, comment, doctype.  `data` holds the
single side-table entry the engine writes, `FormattingAnnotation.indentLevel`
(`setData(node, 'indentLevel', v)`). -/
inductive Node where
  | root (children : List Node) (data : Option Int)
  | element (tagName : Str) (properties : List (Str × Str)) (children : List Node) (data : Option Int)
  | text (value : Str) (data : Option Int)
  | comment (value : Str) (data : Option Int)
  | doctype (data : Option Int)

def childrenOf : Node → List Node
  | .root cs _ => cs
  | .element _ _ cs _ => cs
  | _ => []

def dataOf : Node → Option Int
  | .root _ d => d
  | .element _ _ _ d => d
  | .text _ d => d
  | .comment _ d => d
  | .doctype d => d

def tagNameOf : Node → Option Str
  | .element t _ _ _ => some t
  | _ => none

def valueOf : Node → Option Str
  | .text v _ => some v
  | .comment v _ => some v
  | _ => none

def propsOf : Node → List (Str × Str)
  | .element _ ps _ _ => ps
  | _ => []

def isTextNode : Node → Bool
  | .text _ _ => true
  | _ => false

def isCommentNode : Node → Bool
  | .comment _ _ => true
  | _ => false

def isElementNode : Node → Bool
  | .element _ _ _ _ => true
  | _ => false

def isRootNode : Node → Bool
  | .root _ _ => true
  | _ => false

/-- `hast-util-is-element` with a tag-name list: an element whose tag name is
in the list. -/
def isElementIn (n : Node) (tags : List Str) : Bool :=
  match n with
  | .element t _ _ _ => tags.contains t
  | _ => false

/-- Replace the children list (`node.children = result`).  Text, comment and
doctype nodes carry no children in the model, so they are unchanged (the JS
code stores an always-empty array on them, which nothing reads). -/
def withChildren : Node → List Node → Node
  | .root _ d, cs => .root cs d
  | .element t ps _ d, cs => .element t ps cs d
  | n, _ => n

/-- `setData(node, 'indentLevel', v)`. -/
def setDataNode : Node → Int → Node
  | .root cs _, v => .root cs (some v)
  | .element t ps cs _, v => .element t ps cs (some v)
  | .text s _, v => .text s (some v)
  | .comment s _, v => .comment s (some v)
  | .doctype _, v => .doctype (some v)

/- ## Constants of the formatter module -/

def single : Str := ['\n']
def double : Str := ['\n', '\n']

/-- `html-whitespace-sensitive-tag-names`. -/
def sensitive : List Str :=
  [s2l "pre", s2l "script", s2l "style", s2l "textarea"]

/-- `html-void-elements`. -/
def voids : List Str :=
  [s2l "area", s2l "base", s2l "basefont", s2l "bgsound", s2l "br",
   s2l "col", s2l "command", s2l "embed", s2l "frame", s2l "hr",
   s2l "image", s2l "img", s2l "input", s2l "isindex", s2l "keygen",
   s2l "link", s2l "menuitem", s2l "meta", s2l "nextid", s2l "param",
   s2l "source", s2l "track", s2l "wbr"]

/-- `isVoid(node)`: `voids.indexOf(node.tagName) !== -1` (non-elements have
no tag name, so the lookup fails). -/
def isVoid (node : Node) : Bool :=
  match tagNameOf node with
  | some t => voids.contains t
  | none => false

/-- `ignore(nodes)`: some node of the ancestor chain (including the node
itself) has a whitespace-sensitive tag name. -/
def ignore (nodes : List Node) : Bool :=
  nodes.any fun n =>
    match tagNameOf n with
    | some t => sensitive.contains t
    | none => false

/-- The per-node test handed to `unist-util-find` by `isPageMode`:
`isElement(node, ['html', 'body', 'head'])`. -/
def isHBHElem (n : Node) : Bool :=
  isElementIn n [s2l "html", s2l "body", s2l "head"]

mutual

/-- The tree contains an `html`, `body` or `head` element (the search done
by `unist-util-find` inside `isPageMode`). -/
def containsHBH : Node → Bool
  | .root cs _ => containsHBHList cs
  | .element t ps cs d => isHBHElem (.element t ps cs d) || containsHBHList cs
  | _ => false

def containsHBHList : List Node → Bool
  | [] => false
  | c :: rest => containsHBH c || containsHBHList rest

end

mutual

/-- Number of nodes of a tree; used below only as a recursion bound for the
engine's pass. -/
def nodeSize : Node → Nat
  | .root cs _ => 1 + nodeSizeList cs
  | .element _ _ cs _ => 1 + nodeSizeList cs
  | _ => 1

def nodeSizeList : List Node → Nat
  | [] => 0
  | c :: rest => nodeSize c + nodeSizeList rest

end

/-- `isPageMode(ast)`: true iff no `html`, `body` or `head` element occurs in
the tree. -/
def isPageMode (ast : Node) : Bool := !containsHBH ast

/-- The per-node level computation of the visitor:
`level = parents.length; if (indentInitial === false) level--`. -/
def levelOf (indentInitial : Bool) (parentsLen : Nat) : Int :=
  if indentInitial then (parentsLen : Int) else (parentsLen : Int) - 1

/- ## Engine settings -/

/-- The options of `format(options)` that reach the engine.  `prettierFormat`
stands for the external `prettier.format` call (first argument: the chosen
parser dialect; second: the source text) — an external collaborator of the
engine. -/
structure Settings where
  tabWidth : Nat
  useTabs : Bool
  usePrettier : Bool
  prettierFormat : Str → Str → Str

def defaultSettings : Settings :=
  ⟨2, false, true, fun _ content => content⟩

/-- `indent = useTabs ? '\t' : repeat(' ', tabWidth)`. -/
def indentOf (s : Settings) : Str :=
  if s.useTabs then ['\t'] else List.replicate s.tabWidth ' '

/- ## Template-expression detector -/

/-- `.test` of a lazy interpolation pattern `op … cl`: the string has an
occurrence of `op` followed (after its end) by an occurrence of `cl`. -/
def matchesInterp (op cl : Str) : Str → Bool
  | [] => false
  | c :: rest =>
    (op.isPrefixOf (c :: rest) && containsSub cl ((c :: rest).drop op.length))
      || matchesInterp op cl rest

/-- `ARROW_PERC_INTERPOLATION_REGEXP.test(value)`. -/
def arrowPercMatches (value : Str) : Bool :=
  matchesInterp (s2l "<%") (s2l "%>") value

/-- `DOUBLE_BRACKET_INTERPOLATION_REGEXP.test(value)`. -/
def doubleBracketMatches (value : Str) : Bool :=
  matchesInterp (s2l "\x7b\x7b") (s2l "\x7d\x7d") value

/-- `SINGLE_BRACKET_INTERPOLATION_REGEXP.test(value)`. -/
def singleBracketMatches (value : Str) : Bool :=
  matchesInterp (s2l "\x7b") (s2l "\x7d") value

/-- `isTemplateExpression(value)`: erb first, then double-bracket, then
single-bracket; any match gives `true`. -/
def isTemplateExpression (value : Str) : Bool :=
  if arrowPercMatches value then true
  else if doubleBracketMatches value then true
  else if singleBracketMatches value then true
  else false

/- ## Sibling predicates and hooks -/

def isTextOpt : Option Node → Bool
  | some n => isTextNode n
  | none => false

def isCommentOpt : Option Node → Bool
  | some n => isCommentNode n
  | none => false

/-- `endsWithNewline(node)`. -/
def endsWithNewline : Option Node → Bool
  | some (.text v _) => endsWithNewlineStr v
  | _ => false

/-- `startsWithNewline(node)`. -/
def startsWithNewline : Node → Bool
  | .text v _ => startsWithNewlineStr v
  | _ => false

/-- `containsOnlyTextNodes({children})`. -/
def containsOnlyTextNodes (children : List Node) : Bool :=
  !children.isEmpty && children.all isTextNode

/-- `containsOnlyEmptyTextNodes(node)`. -/
def containsOnlyEmptyTextNodes (children : List Node) : Bool :=
  !children.isEmpty
    && children.all fun n => isTextNode n && isAllWsStr ((valueOf n).getD [])

/-- `handleTemplateExpression(child, children)` (non-text, non-comment
children have no `value`; the JS regex test on `undefined` never matches). -/
def handleTemplateExpression (child : Node) (children : List Node) : Bool :=
  match valueOf child with
  | some v =>
    if isTemplateExpression v then
      if containsOnlyTextNodes children then false
      else if startsWithNewline child then false
      else true
    else false
  | none => false

/-- `beforeChildNodeAddedHook(node, children, child, index, prev)`. -/
def beforeChildNodeAddedHook (node : Node) (children : List Node)
    (child : Node) (index : Nat) (prev : Option Node) : Bool :=
  if handleTemplateExpression child children then true
  else if isCommentOpt prev then true
  else if isElementIn child [s2l "script", s2l "style"] && index != 0 then true
  else if isRootNode node && index == 0 then false
  else !isTextNode child

/-- `afterChildNodesAddedHook(node, prev)`; `node.children` is the rebuilt
list at call time. -/
def afterChildNodesAddedHook (node : Node) (prev : Option Node) : Bool :=
  let hasChilds := !(childrenOf node).isEmpty
  if hasChilds && !containsOnlyTextNodes (childrenOf node) && !isVoid node then
    true
  else
    hasChilds && !isVoid node && !isTextOpt prev

/-- `isElementAfterConditionalComment(node, child, index, prev)`: the
previous sibling is a comment whose text contains `if` (case-sensitive) and
the current child is an element. -/
def isElementAfterConditionalComment (node child : Node) (index : Nat)
    (prev : Option Node) : Bool :=
  match prev with
  | some (.comment v _) => containsSub (s2l "if") v && isElementNode child
  | _ => false

/-- `isConCommentFollowedByComment(node, child, index, prev)`. -/
def isConCommentFollowedByComment (node child : Node) (index : Nat)
    (prev : Option Node) : Bool :=
  match prev, child with
  | some (.comment pv _), .comment cv _ =>
    containsSub (s2l "if") (lowerStr pv) && !containsSub (s2l "if") (lowerStr cv)
  | _, _ => false

/- ## Text-child normalization and child-list rebuild -/

/-- One step of the text-indentation loop: strip leading/trailing spaces and
tabs, then indent the line after every newline to the current level. -/
def normalizeChild (indent : Str) (level : Int) : Node → Node
  | .text v d => .text (indentAfterNl (repeatStr indent level) (stripEdges v)) d
  | n => n

/-- The `newline` flag of the visitor: some text child's (original) value
contains a linefeed. -/
def newlineFlag (children : List Node) : Bool :=
  children.any fun c =>
    match c with
    | .text v _ => v.contains '\n'
    | _ => false

/-- The synthetic `{type: 'text', value: double + repeat(indent, lvl)}`
node. -/
def doubleBreakNode (indent : Str) (lvl : Int) : Node :=
  .text (double ++ repeatStr indent lvl) none

/-- The synthetic `{type: 'text', value: single + repeat(indent, lvl)}`
node. -/
def singleBreakNode (indent : Str) (lvl : Int) : Node :=
  .text (single ++ repeatStr indent lvl) none

/-- The child-walk of the visitor (`while (++index < length) …`): annotate
each child with the indent level, then push a double break, a single break,
or nothing in front of it. -/
def rebuildGo (indent : Str) (level : Int) (newline : Bool) (node : Node)
    (children : List Node) : Option Node → Nat → List Node → List Node
  | _, _, [] => []
  | prev, index, c :: rest =>
    let child := setDataNode c level
    let breaks : List Node :=
      if isElementAfterConditionalComment node child index prev
          || isConCommentFollowedByComment node child index prev then
        [doubleBreakNode indent level]
      else if (!endsWithNewline prev
            && beforeChildNodeAddedHook node children child index prev)
          || (newline && index == 0) then
        [singleBreakNode indent level]
      else []
    breaks ++ child :: rebuildGo indent level newline node children (some child) (index + 1) rest

def rebuildChildren (indent : Str) (level : Int) (newline : Bool)
    (node : Node) (children : List Node) : List Node :=
  rebuildGo indent level newline node children none 0 children

/-- `prevChild` after the loop: the last original child, annotated. -/
def lastOriginalChild (level : Int) (children : List Node) : Option Node :=
  children.getLast?.map fun c => setDataNode c level

/-- The rebuilt children followed, when `afterChildNodesAddedHook` or the
`newline` flag says so, by the closing break at `level - 1`. -/
def finalChildren (indent : Str) (level : Int) (newline : Bool)
    (node : Node) (children : List Node) : List Node :=
  let rebuilt := rebuildChildren indent level newline node children
  if afterChildNodesAddedHook (withChildren node rebuilt) (lastOriginalChild level children)
      || newline then
    rebuilt ++ [singleBreakNode indent (level - 1)]
  else rebuilt

/- ## Embedded-content delegation (`prettierEmbeddedContent`) -/

mutual

/-- `hast-util-to-string`, the `one` helper: the text of a descendant. -/
def toStringOne : Node → Str
  | .text v _ => v
  | .root cs _ => toStringAll cs
  | .element _ _ cs _ => toStringAll cs
  | _ => []

def toStringAll : List Node → Str
  | [] => []
  | c :: rest => toStringOne c ++ toStringAll rest

end

/-- `hast-util-to-string` on a node (`toString(node)` in the source). -/
def toStr : Node → Str
  | .root cs _ => toStringAll cs
  | .element _ _ cs _ => toStringAll cs
  | .text v _ => v
  | .comment v _ => v
  | .doctype _ => []

/-- `node.properties[key]` of an element. -/
def getProp (node : Node) (key : Str) : Option Str :=
  (propsOf node).lookup key

/-- Parser dialect chosen for a `style` element from its `type`/`lang`
properties. -/
def styleParserOf (node : Node) : Str :=
  let typeAttr := lowerStr ((getProp node (s2l "type")).getD [])
  if typeAttr = s2l "text/x-scss" then s2l "scss"
  else if typeAttr = s2l "text/less" then s2l "less"
  else
    let langAttr := lowerStr ((getProp node (s2l "lang")).getD [])
    if langAttr = s2l "postcss" then s2l "css"
    else if langAttr = s2l "scss" then s2l "scss"
    else if langAttr = s2l "less" then s2l "less"
    else s2l "css"

/-- Parser dialect chosen for a `script` element from its `type`/`lang`
properties. -/
def scriptParserOf (node : Node) : Str :=
  let typeAttr := lowerStr ((getProp node (s2l "type")).getD [])
  if containsSub (s2l "json") typeAttr then s2l "json"
  else if typeAttr = s2l "application/x-typescript" then s2l "typescript"
  else
    let langAttr := lowerStr ((getProp node (s2l "lang")).getD [])
    if langAttr = s2l "ts" || langAttr = s2l "tsx" then s2l "typescript"
    else s2l "babylon"

/-- `indentPrettierOutput(formattedText, level)`: prefix every line holding
a non-whitespace character with `level` repetitions of two spaces. -/
def indentPrettierOutput (formattedText : Str) (level : Int) : Str :=
  joinNl ((splitNl formattedText).map fun line =>
    if !(line.filter fun c => !isWsChar c).isEmpty then
      repeatStr (s2l "  ") level ++ line
    else line)

/-- One match of `/<\/script\s*>/` at the head of the string: the remainder
after the match. -/
def matchClosingScriptEnd (l : Str) : Option Str :=
  if (s2l "</script").isPrefixOf l then
    match (l.drop 8).dropWhile isWsChar with
    | '>' :: r => some r
    | _ => none
  else none

/-- `formattedText.replace(/<\/script\s*>/g, '<\\/script>')`.  The fuel is
only a recursion bound; every step consumes at least one character, so the
string's length is enough. -/
def escapeClosingScriptGo : Nat → Str → Str
  | 0, s => s
  | _ + 1, [] => []
  | fuel + 1, c :: rest =>
    match matchClosingScriptEnd (c :: rest) with
    | some r => s2l "<\\/script>" ++ escapeClosingScriptGo fuel r
    | none => c :: escapeClosingScriptGo fuel rest

def escapeClosingScript (s : Str) : Str :=
  escapeClosingScriptGo s.length s

/-- `prettierEmbeddedContent(node, level, indent, prettierOpts)`: for a
`style` or `script` element, hand the flattened text content to the external
formatter and splice the result back as
`[newline, formatted-and-reindented text, closing indent]`; other elements
are left untouched. -/
def prettierEmbeddedContent (s : Settings) (node : Node) (level : Int)
    (indent : Str) : Node :=
  if isElementIn node [s2l "style"] then
    let content := toStr node
    let formattedText :=
      indentPrettierOutput (s.prettierFormat (styleParserOf node) content) level
    withChildren node
      [.text single none, .text formattedText none,
       .text (repeatStr indent (level - 1)) none]
  else if isElementIn node [s2l "script"] then
    let content := toStr node
    let formattedText :=
      escapeClosingScript
        (indentPrettierOutput (s.prettierFormat (scriptParserOf node) content) level)
    withChildren node
      [.text single none, .text formattedText none,
       .text (repeatStr indent (level - 1)) none]
  else node

/- ## The visitor pass -/

/-- A comment carrying the `prettyhtml-ignore` sentinel. -/
def isIgnoreComment : Node → Bool
  | .comment v _ => containsSub (s2l "prettyhtml-ignore") v
  | _ => false

/-- Walk a rebuilt children list, visiting each entry.  The `skipping` flag
models the index returned by the visitor for a `prettyhtml-ignore` comment:
`unist-util-visit-parents` then resumes right after the next element
sibling, so everything up to and including that element stays unvisited.
The sentinel only takes effect when some element actually follows (otherwise
the JS loop falls through and the comment is visited normally). -/
def visitListGo (visit : Node → Node) : Bool → List Node → List Node
  | _, [] => []
  | true, c :: rest =>
    if isElementNode c then c :: visitListGo visit false rest
    else c :: visitListGo visit true rest
  | false, c :: rest =>
    if isIgnoreComment c && rest.any isElementNode then
      c :: visitListGo visit true rest
    else visit c :: visitListGo visit false rest

/-- The comment re-indentation of the visitor: when a comment's text spans
several lines, its last line is re-indented to `level - 1` indent units and
trimmed; other nodes are untouched. -/
def reindentComment (indent : Str) (level : Int) : Node → Node
  | .comment v d =>
    let commentLines := splitNl v
    if commentLines.length > 1 then
      .comment (joinNl (commentLines.dropLast
        ++ [repeatStr indent (level - 1) ++ trimStr (commentLines.getLast?.getD [])])) d
    else .comment v d
  | n => n

/-- The visitor of `transform`, applied pre-order: the node's own comment
re-indentation, the whitespace-sensitive skip, text normalization, the
child-list rebuild, and the visits of the new children.  The fuel only
bounds the recursion depth (one unit per tree level); `transform` supplies
more than enough. -/
def visitNode (s : Settings) (indentInitial : Bool) :
    Nat → List Node → Node → Node
  | 0, _, node => node
  | fuel + 1, parents, node =>
    let indent := indentOf s
    let level := levelOf indentInitial parents.length
    let node1 := reindentComment indent level node
    if ignore (parents ++ [node1]) then
      let node2 := setDataNode node1 (level - 1)
      if !(childrenOf node2).isEmpty then
        if containsOnlyEmptyTextNodes (childrenOf node2) then withChildren node2 []
        else if s.usePrettier then prettierEmbeddedContent s node2 level indent
        else node2
      else node2
    else
      let children0 := childrenOf node1
      let children :=
        if isRootNode node1 then children0
        else children0.map (normalizeChild indent level)
      let newline := if isRootNode node1 then false else newlineFlag children0
      let result := finalChildren indent level newline node1 children
      let newNode := withChildren node1 result
      withChildren newNode
        (visitListGo (visitNode s indentInitial fuel (parents ++ [newNode])) false result)

/-- `transform(tree)` of `format(options)`, the engine pass: derive the page
mode, then run the visitor from the root.  (The `rehype-minify-whitespace`
pre-pass is an external collaborator; the engine receives its output.) -/
def transform (s : Settings) (tree : Node) : Node :=
  visitNode s (isPageMode tree) (nodeSize tree + 1) [] tree

/- ## Tag behavior registry (`HtmlTagDefinition` / `getHtmlTagDefinition`) -/

inductive TagContentType where
  | RAW_TEXT
  | ESCAPABLE_RAW_TEXT
  | PARSABLE_DATA
deriving DecidableEq

/-- The (optional) constructor arguments of `HtmlTagDefinition`.  A missing
argument is the recorded default. -/
structure TagDefArgs where
  closedByChildren : List Str
  closedByParent : Bool
  requiredParents : List Str
  implicitNamespacePfx : Option Str
  contentType : TagContentType
  isVoid : Bool
  ignoreFirstLf : Bool

def defaultTagDefArgs : TagDefArgs :=
  ⟨[], false, [], none, .PARSABLE_DATA, false, false⟩

/-- The fields of a constructed `HtmlTagDefinition` (the
`implicitNamespacePrefix` field is shortened to `implicitNamespacePfx`
here). -/
structure HtmlTagDefinition where
  closedByChildren : List Str
  closedByParent : Bool
  requiredParents : List Str
  parentToAdd : Option Str
  implicitNamespacePfx : Option Str
  contentType : TagContentType
  isVoid : Bool
  ignoreFirstLf : Bool
  canSelfClose : Bool
deriving DecidableEq

/-- The `HtmlTagDefinition` constructor: `closedByParent` is the given flag
or-ed with `isVoid`; the first required parent is the one to add; nothing
sets `canSelfClose`. -/
def mkHtmlTagDefinition (a : TagDefArgs) : HtmlTagDefinition :=
  { closedByChildren := a.closedByChildren
    closedByParent := a.closedByParent || a.isVoid
    requiredParents := a.requiredParents
    parentToAdd := a.requiredParents.head?
    implicitNamespacePfx := a.implicitNamespacePfx
    contentType := a.contentType
    isVoid := a.isVoid
    ignoreFirstLf := a.ignoreFirstLf
    canSelfClose := false }

/-- The property names an object literal inherits from `Object.prototype`.
Both the table access in `getHtmlTagDefinition` and the `in` operator of
`isClosedByChild` find these in addition to the objects' own keys. -/
def objectPrototypeKeys : List Str :=
  [s2l "constructor", s2l "hasOwnProperty", s2l "isPrototypeOf",
   s2l "propertyIsEnumerable", s2l "toLocaleString", s2l "toString",
   s2l "valueOf", s2l "__proto__", s2l "__defineGetter__",
   s2l "__defineSetter__", s2l "__lookupGetter__", s2l "__lookupSetter__"]

/-- `isClosedByChild(name)`: void, or `name.toLowerCase() in
this.closedByChildren`.  The `in` operator checks own keys and the
prototype chain, so names whose lower-casing is an `Object.prototype` key
(e.g. `constructor`) count as closing children even when no
`closedByChildren` entries were given. -/
def isClosedByChild (d : HtmlTagDefinition) (name : Str) : Bool :=
  d.isVoid || d.closedByChildren.contains (lowerStr name)
    || objectPrototypeKeys.contains (lowerStr name)

/-- The table stored in `TAG_DEFINITIONS` for one value of the
`ignoreFirstLf` mode flag (the cache key).  The JS map is built at most once
per mode and only depends on the flag, so it is modelled as a pure table. -/
def tagDefinitions (ignoreFirstLf : Bool) : List (Str × HtmlTagDefinition) :=
  [(s2l "base", mkHtmlTagDefinition { defaultTagDefArgs with isVoid := true }),
   (s2l "meta", mkHtmlTagDefinition { defaultTagDefArgs with isVoid := true }),
   (s2l "area", mkHtmlTagDefinition { defaultTagDefArgs with isVoid := true }),
   (s2l "embed", mkHtmlTagDefinition { defaultTagDefArgs with isVoid := true }),
   (s2l "link", mkHtmlTagDefinition { defaultTagDefArgs with isVoid := true }),
   (s2l "img", mkHtmlTagDefinition { defaultTagDefArgs with isVoid := true }),
   (s2l "input", mkHtmlTagDefinition { defaultTagDefArgs with isVoid := true }),
   (s2l "param", mkHtmlTagDefinition { defaultTagDefArgs with isVoid := true }),
   (s2l "hr", mkHtmlTagDefinition { defaultTagDefArgs with isVoid := true }),
   (s2l "br", mkHtmlTagDefinition { defaultTagDefArgs with isVoid := true }),
   (s2l "source", mkHtmlTagDefinition { defaultTagDefArgs with isVoid := true }),
   (s2l "track", mkHtmlTagDefinition { defaultTagDefArgs with isVoid := true }),
   (s2l "wbr", mkHtmlTagDefinition { defaultTagDefArgs with isVoid := true }),
   (s2l "p", mkHtmlTagDefinition { defaultTagDefArgs with
      closedByChildren :=
        [s2l "address", s2l "article", s2l "aside", s2l "blockquote",
         s2l "div", s2l "dl", s2l "fieldset", s2l "footer", s2l "form",
         s2l "h1", s2l "h2", s2l "h3", s2l "h4", s2l "h5", s2l "h6",
         s2l "header", s2l "hgroup", s2l "hr", s2l "main", s2l "nav",
         s2l "ol", s2l "p", s2l "pre", s2l "section", s2l "table", s2l "ul"],
      closedByParent := true }),
   (s2l "thead", mkHtmlTagDefinition { defaultTagDefArgs with
      closedByChildren := [s2l "tbody", s2l "tfoot"] }),
   (s2l "tbody", mkHtmlTagDefinition { defaultTagDefArgs with
      closedByChildren := [s2l "tbody", s2l "tfoot"], closedByParent := true }),
   (s2l "tfoot", mkHtmlTagDefinition { defaultTagDefArgs with
      closedByChildren := [s2l "tbody"], closedByParent := true }),
   (s2l "tr", mkHtmlTagDefinition { defaultTagDefArgs with
      closedByChildren := [s2l "tr"],
      requiredParents := [s2l "tbody", s2l "tfoot", s2l "thead"],
      closedByParent := true }),
   (s2l "td", mkHtmlTagDefinition { defaultTagDefArgs with
      closedByChildren := [s2l "td", s2l "th"], closedByParent := true }),
   (s2l "th", mkHtmlTagDefinition { defaultTagDefArgs with
      closedByChildren := [s2l "td", s2l "th"], closedByParent := true }),
   (s2l "col", mkHtmlTagDefinition { defaultTagDefArgs with
      requiredParents := [s2l "colgroup"], isVoid := true }),
   (s2l "svg", mkHtmlTagDefinition { defaultTagDefArgs with
      implicitNamespacePfx := some (s2l "svg") }),
   (s2l "math", mkHtmlTagDefinition { defaultTagDefArgs with
      implicitNamespacePfx := some (s2l "math") }),
   (s2l "li", mkHtmlTagDefinition { defaultTagDefArgs with
      closedByChildren := [s2l "li"], closedByParent := true }),
   (s2l "dt", mkHtmlTagDefinition { defaultTagDefArgs with
      closedByChildren := [s2l "dt", s2l "dd"] }),
   (s2l "dd", mkHtmlTagDefinition { defaultTagDefArgs with
      closedByChildren := [s2l "dt", s2l "dd"], closedByParent := true }),
   (s2l "rb", mkHtmlTagDefinition { defaultTagDefArgs with
      closedByChildren := [s2l "rb", s2l "rt", s2l "rtc", s2l "rp"],
      closedByParent := true }),
   (s2l "rt", mkHtmlTagDefinition { defaultTagDefArgs with
      closedByChildren := [s2l "rb", s2l "rt", s2l "rtc", s2l "rp"],
      closedByParent := true }),
   (s2l "rtc", mkHtmlTagDefinition { defaultTagDefArgs with
      closedByChildren := [s2l "rb", s2l "rtc", s2l "rp"],
      closedByParent := true }),
   (s2l "rp", mkHtmlTagDefinition { defaultTagDefArgs with
      closedByChildren := [s2l "rb", s2l "rt", s2l "rtc", s2l "rp"],
      closedByParent := true }),
   (s2l "optgroup", mkHtmlTagDefinition { defaultTagDefArgs with
      closedByChildren := [s2l "optgroup"], closedByParent := true }),
   (s2l "option", mkHtmlTagDefinition { defaultTagDefArgs with
      closedByChildren := [s2l "option", s2l "optgroup"], closedByParent := true }),
   (s2l "pre", mkHtmlTagDefinition { defaultTagDefArgs with ignoreFirstLf := ignoreFirstLf }),
   (s2l "listing", mkHtmlTagDefinition { defaultTagDefArgs with ignoreFirstLf := ignoreFirstLf }),
   (s2l "style", mkHtmlTagDefinition { defaultTagDefArgs with contentType := .RAW_TEXT }),
   (s2l "script", mkHtmlTagDefinition { defaultTagDefArgs with contentType := .RAW_TEXT }),
   (s2l "title", mkHtmlTagDefinition { defaultTagDefArgs with
      contentType := .ESCAPABLE_RAW_TEXT }),
   (s2l "textarea", mkHtmlTagDefinition { defaultTagDefArgs with
      contentType := .ESCAPABLE_RAW_TEXT, ignoreFirstLf := ignoreFirstLf })]

/-- What `TAG_DEFINITIONS.get(cacheKey)[tagName] || _DEFAULT_TAG_DEFINITION`
evaluates to: an `HtmlTagDefinition` (an own table entry, or the default
when the access yields `undefined`), or — for a tag name that is an
`Object.prototype` property — the truthy value inherited through the
prototype chain, which is not a tag definition at all (a function, or the
prototype object for `__proto__`). -/
inductive TagLookupResult where
  | tagDef (d : HtmlTagDefinition)
  | protoInherited (name : Str)
deriving DecidableEq

/-- `getHtmlTagDefinition(tagName, ignoreFirstLf)`: JS property access on
the cached table object — an own key (exact, case-sensitive match) wins,
otherwise the prototype chain is consulted, and only when that also misses
(the access is `undefined`, hence falsy) does `||` fall back to the default
definition. -/
def getHtmlTagDefinition (tagName : Str) (ignoreFirstLf : Bool) : TagLookupResult :=
  match (tagDefinitions ignoreFirstLf).lookup tagName with
  | some d => .tagDef d
  | none =>
    if objectPrototypeKeys.contains tagName then .protoInherited tagName
    else .tagDef (mkHtmlTagDefinition defaultTagDefArgs)

/- ## Statement-side definitions -/

/-- The level rule as worded by the specification and claim C1, for
comparison with the engine's `levelOf`: ancestor depth, minus one exactly
when the tree is in fragment mode, i.e. contains no `html`/`head`/`body`
element. -/
def claimedIndentLevel (tree : Node) (ancestorDepth : Nat) : Int :=
  if containsHBH tree then (ancestorDepth : Int) else (ancestorDepth : Int) - 1

/-- A synthetic break text node of the engine: its value is one or two
linefeeds followed by some repetition of the indent unit, and it carries no
annotation. -/
def isBreakNode (indent : Str) (x : Node) : Prop :=
  ∃ n : Int,
    x = .text (single ++ repeatStr indent n) none ∨
    x = .text (double ++ repeatStr indent n) none

/-- `Interleaved S orig out`: `out` arises from `orig` by inserting extra
entries satisfying `S`; in particular `orig` occurs in `out` exactly once,
in order. -/
inductive Interleaved (S : Node → Prop) : List Node → List Node → Prop where
  | nil : Interleaved S [] []
  | keep {x : Node} {t t' : List Node} :
      Interleaved S t t' → Interleaved S (x :: t) (x :: t')
  | ins {x : Node} {t t' : List Node} :
      S x → Interleaved S t t' → Interleaved S t (x :: t')

/- ## Theorems -/

/-- C5: the template-expression detector tests the three interpolation
patterns in the fixed order `<%…%>`, then double-bracket, then
single-bracket (this is the order of the `if` chain of
`isTemplateExpression`), returning true on any match; it classifies
`"\x7b\x7bx\x7d\x7d and \x7by\x7d"` and `"\x7by\x7d"` as template
expressions and does not classify `"plain"` as one. -/
theorem c5_template_detection :
    isTemplateExpression (s2l "\x7b\x7bx\x7d\x7d and \x7by\x7d") = true ∧
    isTemplateExpression (s2l "\x7by\x7d") = true ∧
    isTemplateExpression (s2l "plain") = false ∧
    ∀ value : Str,
      (arrowPercMatches value || doubleBracketMatches value
        || singleBracketMatches value) = true →
      isTemplateExpression value = true := by
  refine ⟨by decide, by decide, by decide, ?_⟩
  intro value h
  rcases Bool.or_eq_true_iff.mp h with h' | h'
  · rcases Bool.or_eq_true_iff.mp h' with h'' | h'' <;>
      simp [isTemplateExpression, h'']
  · simp [isTemplateExpression, h']

/-- Witness for C5 at the erb-style input `"<% x %>"`. -/
theorem c5_template_detection_witness :
    isTemplateExpression (s2l "<% x %>") = true :=
  c5_template_detection.2.2.2 (s2l "<% x %>") (by decide)

/-- C10: every `HtmlTagDefinition` constructed with `isVoid: true` reports
`closedByParent = true` (the constructor or-s the flag with voidness) and
its `isClosedByChild` returns true for every child tag name, even when no
`closedByChildren` entries were given. -/
theorem c10_void_closed_by (a : TagDefArgs) (h : a.isVoid = true) :
    (mkHtmlTagDefinition a).closedByParent = true ∧
    ∀ name : Str, isClosedByChild (mkHtmlTagDefinition a) name = true := by
  constructor
  · simp [mkHtmlTagDefinition, h]
  · intro name
    simp [isClosedByChild, mkHtmlTagDefinition, h]

/-- Witness for C10: the `base` arguments (`{isVoid: true}`) with child name
`div`. -/
theorem c10_void_closed_by_witness :
    (mkHtmlTagDefinition { defaultTagDefArgs with isVoid := true }).closedByParent = true ∧
    isClosedByChild (mkHtmlTagDefinition { defaultTagDefArgs with isVoid := true })
      (s2l "div") = true := by
  have h := c10_void_closed_by { defaultTagDefArgs with isVoid := true } rfl
  exact ⟨h.1, h.2 (s2l "div")⟩

/-- C6 counterexample: registry lookup is neither case-insensitive nor
default-for-every-unknown-name.  `"P"` misses the table and falls back to
the default, while `"p"` finds the entry with `closedByParent = true`, so
the two lookups disagree; and the name `"constructor"`, absent from the
table, returns the truthy `Object.prototype` value instead of the default
descriptor — on which, moreover, `isClosedByChild` answers `true` although
the default has no `closedByChildren` entries. -/
theorem c6_counterexample :
    getHtmlTagDefinition (s2l "P") false =
      TagLookupResult.tagDef (mkHtmlTagDefinition defaultTagDefArgs) ∧
    (∃ d, getHtmlTagDefinition (s2l "p") false = TagLookupResult.tagDef d ∧
      d.closedByParent = true) ∧
    getHtmlTagDefinition (s2l "P") false ≠ getHtmlTagDefinition (s2l "p") false ∧
    getHtmlTagDefinition (s2l "constructor") false =
      TagLookupResult.protoInherited (s2l "constructor") ∧
    isClosedByChild (mkHtmlTagDefinition defaultTagDefArgs) (s2l "constructor") = true := by
  refine ⟨rfl, ⟨_, rfl, rfl⟩, by decide, rfl, rfl⟩

/-- C6 amended: registry lookup matches tag names exactly (case-sensitively;
only `isClosedByChild`/`requireExtraParent` lower-case their arguments).  A
tag name with no table entry yields the default behavior descriptor — not
void, no required parents, `PARSABLE_DATA` content, `closedByParent =
false`, and closed by no child whose lower-cased name is outside the
`Object.prototype` keys — provided the name itself is not an
`Object.prototype` key; a name that is one (e.g. `constructor`) instead
returns the truthy inherited prototype value, and such names count as
closing children of every descriptor through the `in` operator. -/
theorem c6_amended (name : Str) (mode : Bool)
    (h : (tagDefinitions mode).lookup name = none)
    (hp : objectPrototypeKeys.contains name = false) :
    getHtmlTagDefinition name mode =
      TagLookupResult.tagDef (mkHtmlTagDefinition defaultTagDefArgs) ∧
    (mkHtmlTagDefinition defaultTagDefArgs).isVoid = false ∧
    (mkHtmlTagDefinition defaultTagDefArgs).requiredParents = [] ∧
    (mkHtmlTagDefinition defaultTagDefArgs).contentType = TagContentType.PARSABLE_DATA ∧
    (mkHtmlTagDefinition defaultTagDefArgs).closedByParent = false ∧
    (∀ child : Str, objectPrototypeKeys.contains (lowerStr child) = false →
      isClosedByChild (mkHtmlTagDefinition defaultTagDefArgs) child = false) ∧
    ∀ pname ∈ objectPrototypeKeys,
      getHtmlTagDefinition pname mode = TagLookupResult.protoInherited pname := by
  refine ⟨?_, rfl, rfl, rfl, rfl, ?_, ?_⟩
  · unfold getHtmlTagDefinition
    rw [h, hp]
    rfl
  · intro child hchild
    have hchild' : lowerStr child ∉ objectPrototypeKeys := by
      simpa using hchild
    simp [isClosedByChild, mkHtmlTagDefinition, defaultTagDefArgs, hchild']
  · intro pname hpn
    fin_cases hpn <;> rfl

/-- Witness for C6 amended: the unknown tag name `"x-custom"` in the
`ignoreFirstLf = false` mode, with the child name `"p"` and the prototype
key `"constructor"`. -/
theorem c6_amended_witness :
    getHtmlTagDefinition (s2l "x-custom") false =
      TagLookupResult.tagDef (mkHtmlTagDefinition defaultTagDefArgs) ∧
    isClosedByChild (mkHtmlTagDefinition defaultTagDefArgs) (s2l "p") = false ∧
    getHtmlTagDefinition (s2l "constructor") false =
      TagLookupResult.protoInherited (s2l "constructor") := by
  have h := c6_amended (s2l "x-custom") false (by decide) (by decide)
  exact ⟨h.1, h.2.2.2.2.2.1 (s2l "p") (by decide),
    h.2.2.2.2.2.2 (s2l "constructor") (by decide)⟩

/-- C1 counterexample: the claim's level rule (subtract one in fragment
mode, none when `html`/`head`/`body` is present) disagrees with the engine
at depth 1 of both a fragment tree and a page tree: the engine subtracts
exactly when such an element is present.  Observably, in the fragment tree
the breaks inserted inside `div` sit at indent level 1 (value `"\n  "`),
not at the claimed level 0. -/
theorem c1_counterexample :
    levelOf (isPageMode (.root [.element (s2l "div") [] [] none] none)) 1 = 1 ∧
    claimedIndentLevel (.root [.element (s2l "div") [] [] none] none) 1 = 0 ∧
    levelOf (isPageMode (.root [.element (s2l "html") [] [] none] none)) 1 = 0 ∧
    claimedIndentLevel (.root [.element (s2l "html") [] [] none] none) 1 = 1 ∧
    transform defaultSettings
      (.root [.element (s2l "div") []
        [.element (s2l "p") [] [.text (s2l "A") none] none,
         .element (s2l "p") [] [.text (s2l "B") none] none] none] none) =
      .root [.element (s2l "div") []
        [.text (s2l "\n  ") none,
         .element (s2l "p") [] [.text (s2l "A") (some 2)] (some 1),
         .text (s2l "\n  ") none,
         .element (s2l "p") [] [.text (s2l "B") (some 2)] (some 1),
         .text (s2l "\n") none] (some 0),
        .text (s2l "\n") none] none := by
  refine ⟨rfl, rfl, rfl, rfl, rfl⟩

/-- C1 amended: the engine computes each visited node's level as its
ancestor depth, and one is subtracted exactly when the tree **does** contain
an `html`, `head` or `body` element (`isPageMode` is false); when none is
present no subtraction occurs.  (The claim states the opposite
condition.) -/
theorem c1_amended :
    ∀ (tree : Node) (ancestorDepth : Nat),
      levelOf (isPageMode tree) ancestorDepth =
        if containsHBH tree = true then (ancestorDepth : Int) - 1
        else (ancestorDepth : Int) := by
  intro tree n
  by_cases h : containsHBH tree = true
  · simp [levelOf, isPageMode, h]
  · have h' : containsHBH tree = false := by
      cases hc : containsHBH tree
      · rfl
      · exact absurd hc h
    simp [levelOf, isPageMode, h']

theorem isVoid_withChildren (n : Node) (cs : List Node) :
    isVoid (withChildren n cs) = isVoid n := by
  cases n <;> rfl

theorem tagNameOf_withChildren (n : Node) (cs : List Node) :
    tagNameOf (withChildren n cs) = tagNameOf n := by
  cases n <;> rfl

theorem dataOf_withChildren (n : Node) (cs : List Node) :
    dataOf (withChildren n cs) = dataOf n := by
  cases n <;> rfl

theorem dataOf_setDataNode (n : Node) (v : Int) :
    dataOf (setDataNode n v) = some v := by
  cases n <;> rfl

/-- C4 counterexample: a void element (`input`) with a multi-line text child
does receive the closing break: the `|| newline` disjunct of the visitor
bypasses the void check of `afterChildNodesAddedHook`, so a synthetic
`"\n"` text node is appended as `input`'s last child. -/
theorem c4_counterexample :
    voids.contains (s2l "input") = true ∧
    transform defaultSettings
      (.root [.element (s2l "input") [] [.text (s2l "a\nb") none] none] none) =
      .root [.element (s2l "input") []
        [.text (s2l "\n  ") none,
         .text (s2l "a\n  b") (some 1),
         .text (s2l "\n") none] (some 0),
        .text (s2l "\n") none] none := by
  exact ⟨rfl, rfl⟩

/-- C4 amended: for a void element, `afterChildNodesAddedHook` is always
false (regardless of the children), so no closing break is appended unless
the `newline` flag was set; in particular, when no text child contains a
linefeed the flag is false and the rebuilt children are final, with no
closing break.  (The visitor computes the flag as `newlineFlag` of the
original children and passes it to `finalChildren`.) -/
theorem c4_amended (indent : Str) (level : Int) (newline : Bool) (node : Node)
    (children : List Node) (hvoid : isVoid node = true) :
    afterChildNodesAddedHook
      (withChildren node (rebuildChildren indent level newline node children))
      (lastOriginalChild level children) = false ∧
    (newline = false →
      finalChildren indent level newline node children =
        rebuildChildren indent level newline node children) ∧
    ((∀ (v : Str) (dd : Option Int), Node.text v dd ∈ children →
        v.contains '\n' = false) →
      newlineFlag children = false) := by
  have hhook : afterChildNodesAddedHook
      (withChildren node (rebuildChildren indent level newline node children))
      (lastOriginalChild level children) = false := by
    unfold afterChildNodesAddedHook
    simp [isVoid_withChildren, hvoid]
  refine ⟨hhook, ?_, ?_⟩
  · intro hnl
    subst hnl
    unfold finalChildren
    simp [hhook]
  · intro hall
    unfold newlineFlag
    rw [List.any_eq_false]
    intro c hc
    cases c with
    | text v dd => simpa using hall v dd hc
    | root cs' dd => simp
    | element t' ps' cs' dd => simp
    | comment v dd => simp
    | doctype dd => simp

/-- Witness for C4 amended: the `input` element with the single-line text
child `"ab"`. -/
theorem c4_amended_witness :
    afterChildNodesAddedHook
      (withChildren (.element (s2l "input") [] [.text (s2l "ab") none] none)
        (rebuildChildren (s2l "  ") 1 false
          (.element (s2l "input") [] [.text (s2l "ab") none] none)
          [.text (s2l "ab") none]))
      (lastOriginalChild 1 [.text (s2l "ab") none]) = false ∧
    finalChildren (s2l "  ") 1 false
        (.element (s2l "input") [] [.text (s2l "ab") none] none)
        [.text (s2l "ab") none] =
      rebuildChildren (s2l "  ") 1 false
        (.element (s2l "input") [] [.text (s2l "ab") none] none)
        [.text (s2l "ab") none] ∧
    newlineFlag [.text (s2l "ab") none] = false := by
  have h := c4_amended (s2l "  ") 1 false
    (.element (s2l "input") [] [.text (s2l "ab") none] none)
    [.text (s2l "ab") none] (by decide)
  refine ⟨h.1, h.2.1 rfl, h.2.2 ?_⟩
  intro v dd hm
  rw [List.mem_singleton] at hm
  injection hm with h1 h2
  subst h1
  decide

/-- C3 counterexample: with `usePrettier` enabled (the default), a `style`
element — which is in the whitespace-sensitive set — with non-whitespace
content gets synthetic text nodes spliced into its subtree (a `"\n"` break,
the reindented formatter output, and a closing indent), so the claim's
"no synthetic indentation text nodes inside a sensitive subtree" fails. -/
theorem c3_counterexample :
    transform defaultSettings
      (.root [.element (s2l "style") [] [.text (s2l "body") none] none] none) =
      .root [.element (s2l "style") []
        [.text (s2l "\n") none,
         .text (s2l "  body") none,
         .text [] none] (some 0),
        .text (s2l "\n") none] none := rfl

/-- C3 amended: a whitespace-sensitive node is skipped whole: for an element
in a sensitive chain whose content is not all-whitespace and whose tag is
neither `style` nor `script` (e.g. `pre`, `textarea`), the visit only
records the `level - 1` annotation — the children (and the entire subtree)
are returned byte-identical, with no synthetic text nodes and no closing
break.  (`style`/`script` under `usePrettier` are the exception spliced by
`prettierEmbeddedContent`; all-whitespace content is cleared.) -/
theorem c3_amended (s : Settings) (ii : Bool) (fuel : Nat) (parents : List Node)
    (t : Str) (ps : List (Str × Str)) (cs : List Node) (d : Option Int)
    (hig : ignore (parents ++ [Node.element t ps cs d]) = true)
    (hne : containsOnlyEmptyTextNodes cs = false)
    (hs : t ≠ s2l "style") (hc : t ≠ s2l "script") :
    visitNode s ii (fuel + 1) parents (.element t ps cs d) =
      .element t ps cs (some (levelOf ii parents.length - 1)) := by
  have hs' : (t == s2l "style") = false := beq_eq_false_iff_ne.mpr hs
  have hc' : (t == s2l "script") = false := beq_eq_false_iff_ne.mpr hc
  unfold visitNode
  simp only [reindentComment, setDataNode, childrenOf, hig, if_true]
  simp only [hne, Bool.false_eq_true, if_false]
  by_cases hcs : cs.isEmpty
  · simp [hcs]
  · simp only [hcs, Bool.not_false, if_true]
    by_cases hup : s.usePrettier
    · simp only [hup, if_true]
      unfold prettierEmbeddedContent
      simp only [isElementIn, List.contains, hs', hc']
      simp [hs, hc]
    · simp [hup]

/-- Witness for C3 amended: the scenario `<pre>  foo\n   bar</pre>` at the
top level — the `pre` subtree is classified sensitive, its text child stays
byte-identical and no break is added before its end tag. -/
theorem c3_amended_witness :
    visitNode defaultSettings true 1 []
      (.element (s2l "pre") [] [.text (s2l "  foo\n   bar") none] none) =
      .element (s2l "pre") [] [.text (s2l "  foo\n   bar") none] (some (-1)) := by
  simpa using c3_amended defaultSettings true 0 []
    (s2l "pre") [] [.text (s2l "  foo\n   bar") none] none
    (by decide) (by decide) (by decide) (by decide)

/-- C7: whenever a conditional comment (a comment whose text contains `if`,
e.g. `<!--[if IE]-->`) is immediately followed by an element sibling in the
child list being rebuilt, the engine puts the synthetic double-linefeed+
indent text node between the (annotated) comment and that element, wherever
the pair sits in the list and whatever preceded it. -/
theorem c7_conditional_comment_break
    (indent : Str) (level : Int) (newline : Bool) (node : Node)
    (children : List Node) (prev : Option Node) (index : Nat)
    (l1 l2 : List Node) (v : Str) (dc : Option Int)
    (t : Str) (ps : List (Str × Str)) (cs : List Node) (de : Option Int)
    (hv : containsSub (s2l "if") v = true) :
    ∃ pre post : List Node,
      rebuildGo indent level newline node children prev index
          (l1 ++ Node.comment v dc :: Node.element t ps cs de :: l2) =
        pre ++ Node.comment v (some level) :: doubleBreakNode indent level ::
          Node.element t ps cs (some level) :: post := by
  induction l1 generalizing prev index with
  | nil =>
    rw [List.nil_append]
    simp only [rebuildGo, setDataNode, isElementAfterConditionalComment,
      isElementNode, hv, Bool.true_and, Bool.and_self, Bool.true_or, if_true,
      List.singleton_append, List.cons_append]
    exact ⟨_, _, rfl⟩
  | cons h tail ih =>
    obtain ⟨pre', post', heq⟩ := ih (some (setDataNode h level)) (index + 1)
    rw [List.cons_append]
    simp only [rebuildGo]
    rw [heq, ← List.cons_append, ← List.append_assoc]
    exact ⟨_, _, rfl⟩

/-- Witness for C7: the comment `[if IE]` directly followed by a `p` element
at the head of a `div`'s children, at level 1 with a two-space indent. -/
theorem c7_conditional_comment_break_witness :
    ∃ pre post : List Node,
      rebuildGo (s2l "  ") 1 false (.element (s2l "div") [] [] none)
          [.comment (s2l "[if IE]") none, .element (s2l "p") [] [] none]
          none 0
          ([] ++ Node.comment (s2l "[if IE]") none ::
            Node.element (s2l "p") [] [] none :: []) =
        pre ++ Node.comment (s2l "[if IE]") (some 1) ::
          doubleBreakNode (s2l "  ") 1 ::
          Node.element (s2l "p") [] [] (some 1) :: post :=
  c7_conditional_comment_break (s2l "  ") 1 false
    (.element (s2l "div") [] [] none)
    [.comment (s2l "[if IE]") none, .element (s2l "p") [] [] none]
    none 0 [] [] (s2l "[if IE]") none (s2l "p") [] [] none (by decide)

theorem interleaved_cons_inserted {S : Node → Prop} (ins : List Node)
    (hins : ∀ x ∈ ins, S x) {l1 l2 : List Node} (h : Interleaved S l1 l2) :
    Interleaved S l1 (ins ++ l2) := by
  induction ins with
  | nil => simpa using h
  | cons x rest ih =>
    exact Interleaved.ins (hins x (by simp))
      (ih fun y hy => hins y (by simp [hy]))

theorem interleaved_append_one {S : Node → Prop} {l1 l2 : List Node} (x : Node)
    (hx : S x) (h : Interleaved S l1 l2) : Interleaved S l1 (l2 ++ [x]) := by
  induction h with
  | nil => exact Interleaved.ins hx Interleaved.nil
  | keep _ ih => exact Interleaved.keep ih
  | ins hs _ ih => exact Interleaved.ins hs ih

theorem isBreakNode_single (indent : Str) (lvl : Int) :
    isBreakNode indent (singleBreakNode indent lvl) := ⟨lvl, Or.inl rfl⟩

theorem isBreakNode_double (indent : Str) (lvl : Int) :
    isBreakNode indent (doubleBreakNode indent lvl) := ⟨lvl, Or.inr rfl⟩

theorem interleaved_rebuildGo (indent : Str) (level : Int) (newline : Bool)
    (node : Node) (children : List Node) :
    ∀ (cs : List Node) (prev : Option Node) (index : Nat),
      Interleaved (isBreakNode indent) (cs.map fun c => setDataNode c level)
        (rebuildGo indent level newline node children prev index cs) := by
  intro cs
  induction cs with
  | nil => intro prev index; exact Interleaved.nil
  | cons c rest ih =>
    intro prev index
    simp only [rebuildGo, List.map_cons]
    apply interleaved_cons_inserted
    · intro x hx
      split at hx
      · rw [List.mem_singleton] at hx
        subst hx
        exact isBreakNode_double indent level
      · split at hx
        · rw [List.mem_singleton] at hx
          subst hx
          exact isBreakNode_single indent level
        · simp at hx
    · exact Interleaved.keep (ih _ _)

theorem all_ws_indentOf (s : Settings) : (indentOf s).all isWsChar = true := by
  unfold indentOf
  split
  · rfl
  · rw [List.all_eq_true]
    intro c hc
    rw [List.eq_of_mem_replicate hc]
    rfl

theorem all_ws_repeatStr (ind : Str) (hind : ind.all isWsChar = true) (n : Int) :
    (repeatStr ind n).all isWsChar = true := by
  rw [List.all_eq_true] at *
  intro c hc
  unfold repeatStr at hc
  rw [List.mem_join] at hc
  obtain ⟨l, hl, hcl⟩ := hc
  rw [List.eq_of_mem_replicate hl] at hcl
  exact hind c hcl

/-- C9: the child-list rebuild (including the optional closing break) keeps
every original child exactly once, in order, each carrying its indent-level
annotation; everything added is a synthetic break text node, and every such
node's value is non-empty pure whitespace (one or two linefeeds followed by
repetitions of the indent unit). -/
theorem c9_rebuild_interleaving (s : Settings) (level : Int) (newline : Bool)
    (node : Node) (children : List Node) :
    Interleaved (isBreakNode (indentOf s))
      (children.map fun c => setDataNode c level)
      (finalChildren (indentOf s) level newline node children) ∧
    ∀ x : Node, isBreakNode (indentOf s) x →
      ∃ v : Str, x = .text v none ∧ v ≠ [] ∧ v.all isWsChar = true := by
  constructor
  · unfold finalChildren
    dsimp only
    split
    · exact interleaved_append_one _ (isBreakNode_single _ _)
        (interleaved_rebuildGo _ _ _ _ _ _ _ _)
    · exact interleaved_rebuildGo _ _ _ _ _ _ _ _
  · rintro x ⟨n, hx | hx⟩ <;> subst hx
    · refine ⟨_, rfl, by simp [single], ?_⟩
      rw [List.all_append]
      exact Bool.and_eq_true_iff.mpr
        ⟨rfl, all_ws_repeatStr _ (all_ws_indentOf s) n⟩
    · refine ⟨_, rfl, by simp [double], ?_⟩
      rw [List.all_append]
      exact Bool.and_eq_true_iff.mpr
        ⟨rfl, all_ws_repeatStr _ (all_ws_indentOf s) n⟩

/-- Witness for C9: a single `p` child of a `div` at level 1, and the
single-break node itself. -/
theorem c9_rebuild_interleaving_witness :
    Interleaved (isBreakNode (indentOf defaultSettings))
      ([Node.element (s2l "p") [] [] none].map fun c => setDataNode c 1)
      (finalChildren (indentOf defaultSettings) 1 false
        (.element (s2l "div") [] [] none) [.element (s2l "p") [] [] none]) ∧
    ∃ v : Str, singleBreakNode (indentOf defaultSettings) 1 = .text v none ∧
      v ≠ [] ∧ v.all isWsChar = true :=
  ⟨(c9_rebuild_interleaving defaultSettings 1 false
      (.element (s2l "div") [] [] none) [.element (s2l "p") [] [] none]).1,
   (c9_rebuild_interleaving defaultSettings 1 false
      (.element (s2l "div") [] [] none) [.element (s2l "p") [] [] none]).2 _
      (isBreakNode_single _ _)⟩

theorem dataOf_reindentComment (ind : Str) (lvl : Int) (n : Node) :
    dataOf (reindentComment ind lvl n) = dataOf n := by
  cases n with
  | comment v d =>
    unfold reindentComment
    dsimp only
    split <;> rfl
  | root cs d => rfl
  | element t ps cs d => rfl
  | text v d => rfl
  | doctype d => rfl

theorem tagNameOf_reindentComment (ind : Str) (lvl : Int) (n : Node) :
    tagNameOf (reindentComment ind lvl n) = tagNameOf n := by
  cases n with
  | comment v d =>
    unfold reindentComment
    dsimp only
    split <;> rfl
  | root cs d => rfl
  | element t ps cs d => rfl
  | text v d => rfl
  | doctype d => rfl

theorem ignore_append_singleton (ps : List Node) (a : Node) :
    ignore (ps ++ [a]) = (ignore ps || ignore [a]) := by
  unfold ignore
  rw [List.any_append]

theorem ignore_singleton_eq (a b : Node) (h : tagNameOf a = tagNameOf b) :
    ignore [a] = ignore [b] := by
  unfold ignore
  simp only [List.any_cons, List.any_nil, Bool.or_false]
  rw [h]

theorem childrenOf_withChildren (n : Node) (cs : List Node) :
    childrenOf (withChildren n cs) = cs ∨ childrenOf (withChildren n cs) = [] := by
  cases n <;> simp [withChildren, childrenOf]

theorem levelOf_succ_sub_one (ii : Bool) (n : Nat) :
    levelOf ii (n + 1) - 1 = levelOf ii n := by
  cases ii <;> simp [levelOf] <;> omega

/-- Visiting a text node under a non-sensitive ancestor chain leaves it
unchanged. -/
theorem visitNode_text (s : Settings) (ii : Bool) (fuel : Nat)
    (parents : List Node) (v : Str) (d : Option Int)
    (h : ignore parents = false) :
    visitNode s ii fuel parents (.text v d) = .text v d := by
  cases fuel with
  | zero => rfl
  | succ f =>
    unfold visitNode
    dsimp only
    have hig : ignore (parents ++
        [reindentComment (indentOf s) (levelOf ii parents.length) (.text v d)]) = false := by
      rw [ignore_append_singleton, h]
      rfl
    simp only [hig, Bool.false_eq_true, if_false]
    rfl

theorem dataOf_prettierEmbeddedContent (s : Settings) (n : Node) (level : Int)
    (indent : Str) : dataOf (prettierEmbeddedContent s n level indent) = dataOf n := by
  unfold prettierEmbeddedContent
  split
  · simp [dataOf_withChildren]
  · split
    · simp [dataOf_withChildren]
    · rfl

/-- A visit changes a node's own annotation only in the sensitive-skip
branch, where it writes its own level minus one. -/
theorem dataOf_visitNode (s : Settings) (ii : Bool) (fuel : Nat)
    (parents : List Node) (node : Node) :
    dataOf (visitNode s ii fuel parents node) = dataOf node ∨
    dataOf (visitNode s ii fuel parents node) =
      some (levelOf ii parents.length - 1) := by
  cases fuel with
  | zero => exact Or.inl rfl
  | succ f =>
    unfold visitNode
    dsimp only
    split
    · right
      split
      · split
        · rw [dataOf_withChildren, dataOf_setDataNode]
        · split
          · rw [dataOf_prettierEmbeddedContent, dataOf_setDataNode]
          · rw [dataOf_setDataNode]
      · rw [dataOf_setDataNode]
    · left
      rw [dataOf_withChildren, dataOf_withChildren, dataOf_reindentComment]

theorem mem_rebuildGo (indent : Str) (level : Int) (newline : Bool)
    (node : Node) (children : List Node) :
    ∀ (cs : List Node) (prev : Option Node) (index : Nat) (x : Node),
      x ∈ rebuildGo indent level newline node children prev index cs →
      isBreakNode indent x ∨ ∃ c, c ∈ cs ∧ x = setDataNode c level := by
  intro cs
  induction cs with
  | nil =>
    intro prev index x hx
    simp [rebuildGo] at hx
  | cons c rest ih =>
    intro prev index x hx
    simp only [rebuildGo] at hx
    rw [List.mem_append] at hx
    rcases hx with hx | hx
    · left
      split at hx
      · rw [List.mem_singleton] at hx
        subst hx
        exact isBreakNode_double indent level
      · split at hx
        · rw [List.mem_singleton] at hx
          subst hx
          exact isBreakNode_single indent level
        · simp at hx
    · rw [List.mem_cons] at hx
      rcases hx with hx | hx
      · exact Or.inr ⟨c, by simp, hx⟩
      · rcases ih _ _ _ hx with hb | ⟨c', hc', hx'⟩
        · exact Or.inl hb
        · exact Or.inr ⟨c', by simp [hc'], hx'⟩

theorem mem_finalChildren (indent : Str) (level : Int) (newline : Bool)
    (node : Node) (children : List Node) (x : Node)
    (hx : x ∈ finalChildren indent level newline node children) :
    isBreakNode indent x ∨ ∃ c, c ∈ children ∧ x = setDataNode c level := by
  unfold finalChildren at hx
  dsimp only at hx
  split at hx
  · rw [List.mem_append] at hx
    rcases hx with hx | hx
    · exact mem_rebuildGo indent level newline node children _ _ _ _ hx
    · rw [List.mem_singleton] at hx
      subst hx
      exact Or.inl (isBreakNode_single _ _)
  · exact mem_rebuildGo indent level newline node children _ _ _ _ hx

theorem mem_visitListGo (visit : Node → Node) (P : Node → Prop)
    (hvisit : ∀ y, P y → P (visit y)) :
    ∀ (l : List Node) (skipping : Bool), (∀ y ∈ l, P y) →
      ∀ x ∈ visitListGo visit skipping l, P x := by
  intro l
  induction l with
  | nil =>
    intro skipping _ x hx
    cases skipping <;> simp [visitListGo] at hx
  | cons c rest ih =>
    intro skipping hl x hx
    cases skipping with
    | true =>
      simp only [visitListGo] at hx
      split at hx <;>
        (rcases List.mem_cons.mp hx with h | h
         · exact h ▸ hl c (by simp)
         · exact ih _ (fun y hy => hl y (by simp [hy])) x h)
    | false =>
      simp only [visitListGo] at hx
      split at hx
      · rcases List.mem_cons.mp hx with h | h
        · exact h ▸ hl c (by simp)
        · exact ih _ (fun y hy => hl y (by simp [hy])) x h
      · rcases List.mem_cons.mp hx with h | h
        · exact h ▸ hvisit c (hl c (by simp))
        · exact ih _ (fun y hy => hl y (by simp [hy])) x h

theorem mem_childrenOf_withChildren {x : Node} (n : Node) (cs : List Node)
    (hx : x ∈ childrenOf (withChildren n cs)) : x ∈ cs := by
  rcases childrenOf_withChildren n cs with h | h <;> rw [h] at hx
  · exact hx
  · simp at hx

/-- C8 amended: after a visit of a node in a non-sensitive chain, every
child in the rebuilt list is either a synthetic break node (which carries no
annotation) or carries the indent-level annotation `some level` — every
original child is annotated, whether it was visited, skipped by the
`prettyhtml-ignore` sentinel, or skipped as whitespace-sensitive (in the
last case its own visit rewrites the same value, its level minus one).  The
root node itself and the synthetic break nodes carry no annotation, contrary
to the claim. -/
theorem c8_amended (s : Settings) (ii : Bool) (fuel : Nat)
    (parents : List Node) (node : Node)
    (hig : ignore (parents ++ [node]) = false) :
    ∀ x ∈ childrenOf (visitNode s ii (fuel + 1) parents node),
      isBreakNode (indentOf s) x ∨ dataOf x = some (levelOf ii parents.length) := by
  have hps : ignore parents = false := by
    rw [ignore_append_singleton] at hig
    exact (Bool.or_eq_false_iff.mp hig).1
  have hsn : ignore [node] = false := by
    rw [ignore_append_singleton] at hig
    exact (Bool.or_eq_false_iff.mp hig).2
  have hn1 : ignore (parents ++
      [reindentComment (indentOf s) (levelOf ii parents.length) node]) = false := by
    rw [ignore_append_singleton, hps,
      ignore_singleton_eq _ node (tagNameOf_reindentComment _ _ _), hsn]
    rfl
  unfold visitNode
  dsimp only
  simp only [hn1, Bool.false_eq_true, if_false]
  intro x hx
  have hx' := mem_childrenOf_withChildren _ _ hx
  revert hx'
  generalize hres :
    finalChildren (indentOf s) (levelOf ii parents.length)
      (if isRootNode (reindentComment (indentOf s) (levelOf ii parents.length) node) = true
        then false
        else newlineFlag
          (childrenOf (reindentComment (indentOf s) (levelOf ii parents.length) node)))
      (reindentComment (indentOf s) (levelOf ii parents.length) node)
      (if isRootNode (reindentComment (indentOf s) (levelOf ii parents.length) node) = true
        then childrenOf (reindentComment (indentOf s) (levelOf ii parents.length) node)
        else
          (childrenOf (reindentComment (indentOf s) (levelOf ii parents.length) node)).map
            (normalizeChild (indentOf s) (levelOf ii parents.length))) = result
  intro hx'
  have hpar' : ignore (parents ++
      [withChildren (reindentComment (indentOf s) (levelOf ii parents.length) node) result]) =
      false := by
    rw [ignore_append_singleton, hps,
      ignore_singleton_eq _ node (by
        rw [tagNameOf_withChildren, tagNameOf_reindentComment]), hsn]
    rfl
  refine mem_visitListGo _
    (fun y => isBreakNode (indentOf s) y ∨
      dataOf y = some (levelOf ii parents.length)) ?_ _ false ?_ x hx'
  · intro y hy
    rcases hy with ⟨n, hy1 | hy1⟩ | hdata
    · subst hy1
      rw [visitNode_text _ _ _ _ _ _ hpar']
      exact Or.inl ⟨n, Or.inl rfl⟩
    · subst hy1
      rw [visitNode_text _ _ _ _ _ _ hpar']
      exact Or.inl ⟨n, Or.inr rfl⟩
    · rcases dataOf_visitNode s ii fuel
        (parents ++ [withChildren (reindentComment (indentOf s) (levelOf ii parents.length) node) result]) y with h | h
      · exact Or.inr (h.trans hdata)
      · right
        rw [h]
        have hlen : (parents ++
            [withChildren (reindentComment (indentOf s) (levelOf ii parents.length) node) result]).length =
            parents.length + 1 := by simp
        rw [hlen, levelOf_succ_sub_one]
  · intro y hy
    rw [← hres] at hy
    rcases mem_finalChildren _ _ _ _ _ _ hy with hb | ⟨c, _, hc⟩
    · exact Or.inl hb
    · subst hc
      exact Or.inr (dataOf_setDataNode _ _)

/-- C8 counterexample: not every visited node carries an annotation.  The
root is visited first but nothing ever writes its annotation (it is nobody's
child), and the synthetic break text nodes — which are visited as children —
are pushed without one: after the pass, the root's `data` is still `none`
and the first child of `div` (the inserted `"\n  "` break) has `data =
none`. -/
theorem c8_counterexample :
    dataOf (transform defaultSettings
      (.root [.element (s2l "div") [] [.text (s2l "A") none] none] none)) = none ∧
    (childrenOf ((childrenOf (transform defaultSettings
      (.root [.element (s2l "div") []
        [.element (s2l "p") [] [.text (s2l "A") none] none,
         .element (s2l "p") [] [.text (s2l "B") none] none] none] none))).headD
          (.doctype none))).headD (.doctype none) =
      .text (s2l "\n  ") none :=
  ⟨rfl, rfl⟩

/-- Witness for C8 amended: the annotated `p` child of a `div` visited at
the top level of a fragment. -/
theorem c8_amended_witness :
    isBreakNode (indentOf defaultSettings) (.element (s2l "p") [] [] (some 0)) ∨
    dataOf (.element (s2l "p") [] [] (some 0) : Node) = some 0 :=
  c8_amended defaultSettings true 0 []
    (.element (s2l "div") [] [.element (s2l "p") [] [] none] none) (by decide)
    (.element (s2l "p") [] [] (some 0))
    (List.Mem.tail _ (List.Mem.head _))

theorem isTextNode_setDataNode (c : Node) (v : Int) :
    isTextNode (setDataNode c v) = isTextNode c := by
  cases c <;> rfl

theorem setDataNode_setDataNode (c : Node) (v : Int) :
    setDataNode (setDataNode c v) v = setDataNode c v := by
  cases c <;> rfl

theorem containsHBHList_allText (cs : List Node)
    (h : ∀ c ∈ cs, isTextNode c = true) : containsHBHList cs = false := by
  induction cs with
  | nil => rfl
  | cons c rest ih =>
    have hc := h c (by simp)
    have hrest := ih fun y hy => h y (by simp [hy])
    cases c with
    | text v d => simp [containsHBHList, containsHBH, hrest]
    | root cs' d => simp [isTextNode] at hc
    | element t ps cs' d => simp [isTextNode] at hc
    | comment v d => simp [isTextNode] at hc
    | doctype d => simp [isTextNode] at hc

/-- In a root's child walk over text-only children, no break is ever
inserted: the walk only annotates each child. -/
theorem rebuildGo_root_allText (indent : Str) (level : Int)
    (rcs : List Node) (rd : Option Int) (children : List Node)
    (hct : containsOnlyTextNodes children = true) :
    ∀ (cs : List Node) (prev : Option Node) (index : Nat),
      (∀ c ∈ cs, isTextNode c = true) →
      isCommentOpt prev = false →
      rebuildGo indent level false (.root rcs rd) children prev index cs =
        cs.map fun c => setDataNode c level := by
  intro cs
  induction cs with
  | nil => intro prev index _ _; rfl
  | cons c rest ih =>
    intro prev index hall hprev
    have hc : isTextNode c = true := hall c (by simp)
    cases c with
    | root a b => simp [isTextNode] at hc
    | element a b e f => simp [isTextNode] at hc
    | comment a b => simp [isTextNode] at hc
    | doctype a => simp [isTextNode] at hc
    | text v d =>
      have hdc : isElementAfterConditionalComment (.root rcs rd)
          (setDataNode (.text v d) level) index prev = false := by
        cases prev with
        | none => rfl
        | some p =>
          cases p with
          | comment pv pd => simp [isCommentOpt, isCommentNode] at hprev
          | root a b => rfl
          | element a b e f => rfl
          | text a b => rfl
          | doctype a => rfl
      have hcc : isConCommentFollowedByComment (.root rcs rd)
          (setDataNode (.text v d) level) index prev = false := by
        cases prev with
        | none => rfl
        | some p =>
          cases p with
          | comment pv pd => simp [isCommentOpt, isCommentNode] at hprev
          | root a b => rfl
          | element a b e f => rfl
          | text a b => rfl
          | doctype a => rfl
      have hhook : beforeChildNodeAddedHook (.root rcs rd) children
          (setDataNode (.text v d) level) index prev = false := by
        show beforeChildNodeAddedHook (.root rcs rd) children
          (.text v (some level)) index prev = false
        have htmpl : handleTemplateExpression (.text v (some level)) children = false := by
          unfold handleTemplateExpression
          by_cases ht : isTemplateExpression v
          · simp [ht, hct, valueOf]
          · simp [ht, valueOf]
        unfold beforeChildNodeAddedHook
        simp [htmpl, hprev, isElementIn, isRootNode, isTextNode]
      simp only [rebuildGo]
      simp only [hdc, hcc, hhook, Bool.false_or, Bool.or_self, Bool.and_false,
        Bool.false_and, Bool.false_eq_true, if_false, List.nil_append,
        List.map_cons]
      rw [ih _ _ (fun y hy => hall y (by simp [hy])) (by rfl)]

theorem afterHook_root_allText (level : Int) (rd : Option Int)
    (children : List Node) (hall : ∀ c ∈ children, isTextNode c = true) :
    afterChildNodesAddedHook
      (.root (children.map fun c => setDataNode c level) rd)
      (lastOriginalChild level children) = false := by
  cases children with
  | nil => rfl
  | cons c rest =>
    have honly : containsOnlyTextNodes
        ((c :: rest).map fun x => setDataNode x level) = true := by
      unfold containsOnlyTextNodes
      rw [Bool.and_eq_true, List.all_eq_true]
      constructor
      · simp
      · intro y hy
        rw [List.mem_map] at hy
        obtain ⟨y', hy', rfl⟩ := hy
        rw [isTextNode_setDataNode]
        exact hall y' hy'
    have hprev : isTextOpt (lastOriginalChild level (c :: rest)) = true := by
      unfold lastOriginalChild
      rw [List.getLast?_eq_getLast_of_ne_nil (List.cons_ne_nil c rest)]
      show isTextNode (setDataNode ((c :: rest).getLast (List.cons_ne_nil c rest)) level) = true
      rw [isTextNode_setDataNode]
      exact hall _ (List.getLast_mem _)
    rw [List.map_cons] at honly
    unfold afterChildNodesAddedHook
    simp [childrenOf, honly, hprev]

theorem visitListGo_texts (visit : Node → Node)
    (hv : ∀ (v : Str) (d : Option Int), visit (.text v d) = .text v d) :
    ∀ l : List Node, (∀ c ∈ l, isTextNode c = true) →
      visitListGo visit false l = l := by
  intro l
  induction l with
  | nil => intro _; rfl
  | cons c rest ih =>
    intro hall
    have hc := hall c (by simp)
    cases c with
    | root a b => simp [isTextNode] at hc
    | element a b e f => simp [isTextNode] at hc
    | comment a b => simp [isTextNode] at hc
    | doctype a => simp [isTextNode] at hc
    | text v d =>
      simp only [visitListGo, isIgnoreComment, Bool.false_and,
        Bool.false_eq_true, if_false]
      rw [hv, ih fun y hy => hall y (by simp [hy])]

/-- A root whose children are all text nodes is only annotated by the pass:
each child gets `indentLevel = levelOf ii 0` and nothing else changes. -/
theorem visitNode_root_allText (s : Settings) (ii : Bool) (fuel : Nat)
    (rcs : List Node) (rd : Option Int)
    (hall : ∀ c ∈ rcs, isTextNode c = true) :
    visitNode s ii (fuel + 1) [] (.root rcs rd) =
      .root (rcs.map fun c => setDataNode c (levelOf ii 0)) rd := by
  have hres : finalChildren (indentOf s) (levelOf ii 0) false (.root rcs rd) rcs =
      rcs.map fun c => setDataNode c (levelOf ii 0) := by
    cases rcs with
    | nil => rfl
    | cons c rest =>
      unfold finalChildren rebuildChildren
      dsimp only
      rw [rebuildGo_root_allText (indentOf s) (levelOf ii 0) (c :: rest) rd
        (c :: rest) (by
          unfold containsOnlyTextNodes
          rw [Bool.and_eq_true, List.all_eq_true]
          exact ⟨by simp, hall⟩)
        (c :: rest) none 0 hall rfl]
      rw [show withChildren (Node.root (c :: rest) rd)
          ((c :: rest).map fun x => setDataNode x (levelOf ii 0)) =
          Node.root ((c :: rest).map fun x => setDataNode x (levelOf ii 0)) rd from rfl]
      rw [afterHook_root_allText (levelOf ii 0) rd (c :: rest) hall]
      simp
  unfold visitNode
  simp only [List.nil_append, List.length_nil, reindentComment]
  rw [show ignore [Node.root rcs rd] = false from rfl]
  simp only [Bool.false_eq_true, if_false]
  simp only [isRootNode, if_true, childrenOf]
  rw [hres]
  rw [show withChildren (Node.root rcs rd)
      (rcs.map fun c => setDataNode c (levelOf ii 0)) =
      Node.root (rcs.map fun c => setDataNode c (levelOf ii 0)) rd from rfl]
  rw [visitListGo_texts _
    (fun v d => visitNode_text s ii fuel
      [Node.root (rcs.map fun c => setDataNode c (levelOf ii 0)) rd] v d rfl) _
    (by
      intro y hy
      rw [List.mem_map] at hy
      obtain ⟨y', hy', rfl⟩ := hy
      rw [isTextNode_setDataNode]
      exact hall y' hy')]
  rfl

/-- C2 counterexample: the engine pass is not idempotent.  On
`root [div [text "A"]]` the first pass appends a closing `"\n"` break to the
root; the second pass appends another one (the root still has a non-text
child and `afterChildNodesAddedHook` fires again), so the second result has
three root children instead of two. -/
theorem c2_counterexample :
    transform defaultSettings (transform defaultSettings
      (.root [.element (s2l "div") [] [.text (s2l "A") none] none] none)) ≠
    transform defaultSettings
      (.root [.element (s2l "div") [] [.text (s2l "A") none] none] none) ∧
    transform defaultSettings (transform defaultSettings
      (.root [.element (s2l "div") [] [.text (s2l "A") none] none] none)) =
      .root [.element (s2l "div") [] [.text (s2l "A") (some 1)] (some 0),
        .text (s2l "\n") (some 0), .text (s2l "\n") none] none := by
  constructor
  · intro h
    have h2 : (childrenOf (transform defaultSettings (transform defaultSettings
        (.root [.element (s2l "div") [] [.text (s2l "A") none] none] none)))).length = 3 := rfl
    rw [h] at h2
    have h1 : (childrenOf (transform defaultSettings
        (.root [.element (s2l "div") [] [.text (s2l "A") none] none] none))).length = 2 := rfl
    rw [h1] at h2
    exact absurd h2 (by decide)
  · rfl

/-- C2 amended: the pass is idempotent only on trees it leaves structurally
unchanged — e.g. a root whose children are all text nodes, where no break is
inserted and re-annotation writes the same values.  As soon as the pass
inserts break nodes the claim fails: re-application appends a further root
closing break (see the counterexample). -/
theorem c2_amended (s : Settings) (rcs : List Node) (rd : Option Int)
    (hall : ∀ c ∈ rcs, isTextNode c = true) :
    transform s (transform s (.root rcs rd)) = transform s (.root rcs rd) := by
  have hpm : isPageMode (.root rcs rd) = true := by
    unfold isPageMode
    rw [show containsHBH (.root rcs rd) = containsHBHList rcs from rfl]
    rw [containsHBHList_allText rcs hall]
    rfl
  have h1 : transform s (.root rcs rd) =
      .root (rcs.map fun c => setDataNode c (levelOf true 0)) rd := by
    unfold transform
    rw [hpm]
    exact visitNode_root_allText s true (nodeSize (.root rcs rd)) rcs rd hall
  have hall2 : ∀ c ∈ rcs.map fun c => setDataNode c (levelOf true 0),
      isTextNode c = true := by
    intro c hc
    rw [List.mem_map] at hc
    obtain ⟨c', hc', rfl⟩ := hc
    rw [isTextNode_setDataNode]
    exact hall c' hc'
  have hpm2 : isPageMode (.root (rcs.map fun c => setDataNode c (levelOf true 0)) rd) = true := by
    unfold isPageMode
    rw [show containsHBH (.root (rcs.map fun c => setDataNode c (levelOf true 0)) rd) =
      containsHBHList (rcs.map fun c => setDataNode c (levelOf true 0)) from rfl]
    rw [containsHBHList_allText _ hall2]
    rfl
  have h2 : transform s (.root (rcs.map fun c => setDataNode c (levelOf true 0)) rd) =
      .root ((rcs.map fun c => setDataNode c (levelOf true 0)).map
        fun c => setDataNode c (levelOf true 0)) rd := by
    unfold transform
    rw [hpm2]
    exact visitNode_root_allText s true _ _ rd hall2
  rw [h1, h2, List.map_map]
  congr 1
  apply List.map_congr_left
  intro a _
  simp only [Function.comp_apply]
  exact setDataNode_setDataNode a (levelOf true 0)

/-- Witness for C2 amended: a root with the single text child `"A"`. -/
theorem c2_amended_witness :
    transform defaultSettings (transform defaultSettings
      (.root [.text (s2l "A") none] none)) =
    transform defaultSettings (.root [.text (s2l "A") none] none) :=
  c2_amended defaultSettings [.text (s2l "A") none] none (by decide)
